import Mathlib

/-!
Verification of the shading core of the rust-raytracer repository: the
Cook-Torrance microfacet material (src/cooktorrancematerial.rs) behind the
Material capability interface. Floating-point (f64) arithmetic is embedded as
exact real arithmetic; a separate Option-valued evaluator models the
operations that produce non-finite f64 values (NaN / Infinity) as failure.
-/

open scoped Classical

/-- Modelled from the spec: the repository vector type (vec3.rs is not part of
the provided sources). Per the spec data model, a direction/color vector is a
3-component floating-point value used interchangeably as a unit direction or
as an RGB color/coefficient triple. -/
@[ext]
structure Vec3 where
  x : ℝ
  y : ℝ
  z : ℝ

namespace Vec3

/-- Modelled from the spec: componentwise vector addition, used by the
evaluator to form l + i before normalizing the half-vector. -/
instance : Add Vec3 :=
  ⟨fun a b => ⟨a.x + b.x, a.y + b.y, a.z + b.z⟩⟩

theorem add_def (a b : Vec3) : a + b = ⟨a.x + b.x, a.y + b.y, a.z + b.z⟩ :=
  rfl

/-- Modelled from the spec: Euclidean dot product of two vectors. -/
def dot (a b : Vec3) : ℝ :=
  a.x * b.x + a.y * b.y + a.z * b.z

/-- Modelled from the spec: multiply every component by a scalar, used both
for scaling colors by coefficients and for normalization. -/
def scale (a : Vec3) (s : ℝ) : Vec3 :=
  ⟨a.x * s, a.y * s, a.z * s⟩

/-- Modelled from the spec: normalize a vector to unit length (divide by its
Euclidean length). The spec notes that normalizing a zero vector is undefined
in the source; under exact real arithmetic this total version maps the zero
vector to the zero vector (division by zero is zero in the real model), and
the Option-valued evaluator below treats that case as failure. -/
noncomputable def unit (a : Vec3) : Vec3 :=
  a.scale (1 / Real.sqrt (a.dot a))

end Vec3

/-- Material parameter record of CookTorranceMaterial, fields exactly as in
src/cooktorrancematerial.rs lines 5-18. -/
structure CookTorranceMaterial where
  k_a : ℝ
  k_d : ℝ
  k_s : ℝ
  k_sg : ℝ
  k_tg : ℝ
  ambient : Vec3
  diffuse : Vec3
  transmission : Vec3
  specular : Vec3
  roughness : ℝ
  gauss_constant : ℝ
  ior : ℝ

namespace CookTorranceMaterial

/-- Schlick Fresnel term as computed in sample, src lines 34-38: with n1 = 1
and n2 = ior, f0 = ((n1 - n2) / (n1 + n2))^2 and
f = (1 - v_dot_h)^5 * (1 - f0) + f0. -/
noncomputable def fresnel (ior v_dot_h : ℝ) : ℝ :=
  let f0 := ((1 - ior) / (1 + ior)) ^ 2
  (1 - v_dot_h) ^ 5 * (1 - f0) + f0

/-- Direct-lighting evaluation, src/cooktorrancematerial.rs lines 21-52
(Material::sample). Real-arithmetic embedding of the f64 computation; the
let-bound locals follow the source line by line. -/
noncomputable def sample (m : CookTorranceMaterial) (n i l : Vec3) : Vec3 :=
  let h := (l + i).unit
  let ambient := m.ambient.scale m.k_a
  let diffuse := (m.diffuse.scale m.k_d).scale (n.dot l)
  let n_dot_h := n.dot h
  let n_dot_l := n.dot l
  let v_dot_h := i.dot h
  let n_dot_v := n.dot i
  let f := fresnel m.ior v_dot_h
  let alpha := Real.arccos n_dot_h
  let d := m.gauss_constant * Real.exp (-alpha / Real.sqrt m.roughness)
  let g1 := 2 * n_dot_h * n_dot_v / v_dot_h
  let g2 := 2 * n_dot_h * n_dot_l / v_dot_h
  let g := min g1 g2
  let brdf := f * d * g / (n_dot_v * n_dot_l)
  m.specular.scale (m.k_s * brdf) + diffuse + ambient

/-- Reflectivity flag, src lines 54-56: k_sg > 0. -/
def is_reflective (m : CookTorranceMaterial) : Prop :=
  m.k_sg > 0

/-- Refractivity flag, src lines 58-60: k_tg > 0. -/
def is_refractive (m : CookTorranceMaterial) : Prop :=
  m.k_tg > 0

/-- Reflection scaling, src lines 62-64: color.scale(k_sg). -/
def global_specular (m : CookTorranceMaterial) (color : Vec3) : Vec3 :=
  color.scale m.k_sg

/-- Transmission scaling, src lines 66-68: color.scale(k_tg). -/
def global_transmissive (m : CookTorranceMaterial) (color : Vec3) : Vec3 :=
  color.scale m.k_tg

end CookTorranceMaterial

open CookTorranceMaterial

/-- Replace only the global specular coefficient of a material, keeping every
other field; used to state the enumeration part of the reflectivity claim. -/
def withKsg (m : CookTorranceMaterial) (v : ℝ) : CookTorranceMaterial :=
  ⟨m.k_a, m.k_d, m.k_s, v, m.k_tg, m.ambient, m.diffuse, m.transmission,
    m.specular, m.roughness, m.gauss_constant, m.ior⟩

/-- Spec-side Fresnel reflectance at normal incidence, from the spec words:
with n1 = 1, n2 = ior, f0 = ((n1 - n2) / (n1 + n2))^2. -/
noncomputable def specF0 (ior : ℝ) : ℝ :=
  ((1 - ior) / (1 + ior)) ^ 2

/-- Spec-side Schlick Fresnel term, from the spec words:
f = f0 + (1 - f0) * (1 - dot(i,h))^5. -/
noncomputable def specFresnel (ior vh : ℝ) : ℝ :=
  specF0 ior + (1 - specF0 ior) * (1 - vh) ^ 5

/-- Spec-side microfacet distribution, from the spec words:
D = gauss_constant * exp(-acos(dot(n,h)) / sqrt(roughness)). -/
noncomputable def specDistribution (gc rough nh : ℝ) : ℝ :=
  gc * Real.exp (-Real.arccos nh / Real.sqrt rough)

/-- Spec-side geometric attenuation, from the spec words:
G = min(2 dot(n,h) dot(n,i) / dot(i,h), 2 dot(n,h) dot(n,l) / dot(i,h)). -/
noncomputable def specGeometric (nh nv nl vh : ℝ) : ℝ :=
  min (2 * nh * nv / vh) (2 * nh * nl / vh)

/-- Spec-side combined specular BRDF, from the spec words:
brdf = F * D * G / (dot(n,i) * dot(n,l)) with h = normalize(l + i). -/
noncomputable def specBrdf (m : CookTorranceMaterial) (n i l : Vec3) : ℝ :=
  let h := (l + i).unit
  specFresnel m.ior (i.dot h) *
      specDistribution m.gauss_constant m.roughness (n.dot h) *
      specGeometric (n.dot h) (n.dot i) (n.dot l) (i.dot h) /
    (n.dot i * n.dot l)

/-- Unit normal pointing along the z axis, used as a concrete input. -/
def e3 : Vec3 :=
  ⟨0, 0, 1⟩

/-- Unit vector opposite to e3, giving a zero-length half-vector with e3. -/
def negE3 : Vec3 :=
  ⟨0, 0, -1⟩

/-- Unit light direction below the surface with normal e3: dot with e3 is
negative while e3 + lBelow is nonzero. -/
noncomputable def lBelow : Vec3 :=
  ⟨3 / 5, 0, -(4 / 5)⟩

/-- All-ones color triple. -/
def one3 : Vec3 :=
  ⟨1, 1, 1⟩

/-- Concrete material of the spec round-trip test: k_a = 0.1, k_d = 0.6,
k_s = 0.3, k_sg = 0, k_tg = 0, roughness = 0.2, gauss_constant = 1,
ior = 1.5, all colors (1,1,1). -/
noncomputable def mRT : CookTorranceMaterial :=
  ⟨0.1, 0.6, 0.3, 0, 0, one3, one3, one3, one3, 0.2, 1, 1.5⟩

/-- Material identical to mRT except for the global recursion parameters:
k_sg = 2, k_tg = 3 and a different transmission color. -/
noncomputable def mGlob : CookTorranceMaterial :=
  ⟨0.1, 0.6, 0.3, 2, 3, one3, one3, ⟨0, 0, 0⟩, one3, 0.2, 1, 1.5⟩

/-- Diffuse-only material: k_a = 0, k_d = 1, k_s = 0, all colors (1,1,1). -/
noncomputable def mDiff : CookTorranceMaterial :=
  ⟨0, 1, 0, 0, 0, one3, one3, one3, one3, 0.2, 1, 1.5⟩

/-- Ambient-only material: k_a = 0.5, k_d = 0, k_s = 0. -/
noncomputable def mAmb : CookTorranceMaterial :=
  ⟨0.5, 0, 0, 0, 0, one3, one3, one3, one3, 0.2, 1, 1.5⟩

/-- Modelled from the spec: fallible normalization. The spec notes that
normalizing a zero vector is undefined in the source (in f64 it divides zero
by zero, producing NaN components), so the zero vector maps to none; any
other vector is scaled by the reciprocal of its length. -/
noncomputable def unitQ (a : Vec3) : Option Vec3 :=
  if a.dot a = 0 then none else some (a.scale (1 / Real.sqrt (a.dot a)))

/-- Finiteness-tracking evaluator: the same computation as sample, returning
none exactly when a step of the source produces a non-finite f64 value:
normalizing a zero half-vector l + i (NaN), acos of an argument outside
[-1, 1] (NaN), sqrt of a non-positive roughness (NaN for negative roughness;
for zero roughness the zero divisor feeds the exp argument, modelled
conservatively as failure), division by a zero dot(i,h) in the geometric
factor (Infinity or NaN), and a zero denominator dot(n,i) * dot(n,l) in the
combined brdf. Arithmetic is otherwise exact real arithmetic. -/
noncomputable def sampleF (m : CookTorranceMaterial) (n i l : Vec3) :
    Option Vec3 :=
  match unitQ (l + i) with
  | none => none
  | some h =>
    let ambient := m.ambient.scale m.k_a
    let diffuse := (m.diffuse.scale m.k_d).scale (n.dot l)
    let n_dot_h := n.dot h
    let n_dot_l := n.dot l
    let v_dot_h := i.dot h
    let n_dot_v := n.dot i
    if 1 < |n_dot_h| then none
    else if m.roughness ≤ 0 then none
    else if v_dot_h = 0 then none
    else if n_dot_v * n_dot_l = 0 then none
    else
      let f := fresnel m.ior v_dot_h
      let alpha := Real.arccos n_dot_h
      let d := m.gauss_constant * Real.exp (-alpha / Real.sqrt m.roughness)
      let g := min (2 * n_dot_h * n_dot_v / v_dot_h)
        (2 * n_dot_h * n_dot_l / v_dot_h)
      let brdf := f * d * g / (n_dot_v * n_dot_l)
      some (m.specular.scale (m.k_s * brdf) + diffuse + ambient)

/-- Square root of four, shared by the concrete-input computations. -/
theorem sqrtFour : Real.sqrt 4 = 2 := by
  rw [show (4 : ℝ) = 2 ^ 2 by norm_num, Real.sqrt_sq (by norm_num : (0:ℝ) ≤ 2)]

/-- Normalizing e3 + e3 gives back e3, shared by the concrete-input
computations. -/
theorem unit_double_e3 : (e3 + e3).unit = e3 := by
  have h4 : (e3 + e3).dot (e3 + e3) = 4 := by
    norm_num [Vec3.dot, Vec3.add_def, e3]
  rw [show (e3 + e3).unit =
      (e3 + e3).scale (1 / Real.sqrt ((e3 + e3).dot (e3 + e3))) from rfl,
    h4, sqrtFour]
  ext <;> norm_num [Vec3.scale, Vec3.add_def, e3]

/-- C6: is_reflective holds exactly when the global specular coefficient k_sg
is strictly positive, is_refractive exactly when the global transmissive
coefficient k_tg is strictly positive, and over the coefficients 0, 1e-9,
0.5, 5 the reflectivity flag reads false, true, true, true. -/
theorem is_reflective_iff_ksg_pos (m : CookTorranceMaterial) :
    (is_reflective m ↔ 0 < m.k_sg) ∧ (is_refractive m ↔ 0 < m.k_tg) ∧
      ¬ is_reflective (withKsg m 0) ∧ is_reflective (withKsg m 1e-9) ∧
      is_reflective (withKsg m 0.5) ∧ is_reflective (withKsg m 5) := by
  refine ⟨Iff.rfl, Iff.rfl, ?_, ?_, ?_, ?_⟩ <;>
    simp [is_reflective, withKsg] <;> norm_num

/-- C7: global_specular multiplies each component of its argument by k_sg and
global_transmissive multiplies each component by k_tg; on the color (1,1,1)
the former returns (k_sg, k_sg, k_sg). -/
theorem global_specular_componentwise (m : CookTorranceMaterial) (c : Vec3) :
    global_specular m c = ⟨c.x * m.k_sg, c.y * m.k_sg, c.z * m.k_sg⟩ ∧
      global_transmissive m c = ⟨c.x * m.k_tg, c.y * m.k_tg, c.z * m.k_tg⟩ ∧
      global_specular m ⟨1, 1, 1⟩ = ⟨m.k_sg, m.k_sg, m.k_sg⟩ := by
  refine ⟨rfl, rfl, ?_⟩
  simp [global_specular, Vec3.scale]

/-- C1: for unit direction vectors n, i, l with l + i nonzero, sample returns
specular_color * k_s * brdf plus the diffuse term diffuse_color * k_d times
dot(n,l) plus the ambient term ambient_color * k_a, where brdf is the
spec-side F * D * G / (dot(n,i) * dot(n,l)) built from the half-vector
h = normalize(l + i). -/
theorem sample_eq_spec_formula (m : CookTorranceMaterial) (n i l : Vec3)
    (hn : n.dot n = 1) (hi : i.dot i = 1) (hl : l.dot l = 1)
    (hne : l + i ≠ ⟨0, 0, 0⟩) :
    sample m n i l =
      m.specular.scale (m.k_s * specBrdf m n i l) +
        (m.diffuse.scale m.k_d).scale (n.dot l) + m.ambient.scale m.k_a := by
  ext <;>
    simp only [sample, fresnel, specBrdf, specFresnel, specF0,
      specDistribution, specGeometric, Vec3.scale, Vec3.add_def] <;>
    ring

/-- Witness for C1 at n = i = l = (0,0,1). -/
theorem sample_eq_spec_formula_witness :
    e3.dot e3 = 1 ∧ e3 + e3 ≠ ⟨0, 0, 0⟩ ∧
      sample mRT e3 e3 e3 =
        mRT.specular.scale (mRT.k_s * specBrdf mRT e3 e3 e3) +
          (mRT.diffuse.scale mRT.k_d).scale (e3.dot e3) +
          mRT.ambient.scale mRT.k_a := by
  refine ⟨by norm_num [Vec3.dot, e3], ?_, ?_⟩
  · intro hEq
    have := congrArg Vec3.z hEq
    simp [e3, Vec3.add_def] at this
  · exact sample_eq_spec_formula mRT e3 e3 e3 (by norm_num [Vec3.dot, e3])
      (by norm_num [Vec3.dot, e3]) (by norm_num [Vec3.dot, e3])
      (by intro hEq; have := congrArg Vec3.z hEq; simp [e3, Vec3.add_def] at this)

/-- C3 counterexample: for the diffuse-only material mDiff (k_a = 0, k_s = 0,
k_d = 1, diffuse color (1,1,1)) with n = i = (0,0,1) and the light direction
lBelow below the surface, sample does not return
diffuse_color * k_d * max(dot(n,l), 0): the code leaves the dot product
unclamped and returns a negative diffuse contribution. -/
theorem sample_diffuse_clamped_cex :
    sample mDiff e3 e3 lBelow ≠
      (mDiff.diffuse.scale mDiff.k_d).scale (max (e3.dot lBelow) 0) := by
  intro hEq
  have hx := congrArg Vec3.x hEq
  simp [sample, fresnel, mDiff, e3, lBelow, one3, Vec3.scale, Vec3.dot,
    Vec3.add_def] at hx
  norm_num at hx

/-- C3 amended: for every material with k_a = 0 and k_s = 0 and all direction
vectors, sample returns diffuse_color * k_d * dot(n,l) with the dot product
left unclamped, so a light below the surface contributes negatively. -/
theorem sample_ka_ks_zero_diffuse (m : CookTorranceMaterial) (n i l : Vec3)
    (ha : m.k_a = 0) (hs : m.k_s = 0) :
    sample m n i l = (m.diffuse.scale m.k_d).scale (n.dot l) := by
  ext <;> simp [sample, Vec3.scale, Vec3.add_def, ha, hs]

/-- Witness for the amended C3 at the diffuse-only material and a light
direction below the surface. -/
theorem sample_ka_ks_zero_diffuse_witness :
    mDiff.k_a = 0 ∧ mDiff.k_s = 0 ∧
      sample mDiff e3 e3 lBelow =
        (mDiff.diffuse.scale mDiff.k_d).scale (e3.dot lBelow) :=
  ⟨rfl, rfl, sample_ka_ks_zero_diffuse mDiff e3 e3 lBelow rfl rfl⟩

/-- C4: for every ambient-only material (k_d = 0, k_s = 0, k_a > 0) and unit
directions n, i, l, sample returns exactly ambient_color * k_a. -/
theorem sample_ambient_only (m : CookTorranceMaterial) (n i l : Vec3)
    (hd : m.k_d = 0) (hs : m.k_s = 0) (hk : 0 < m.k_a)
    (hn : n.dot n = 1) (hi : i.dot i = 1) (hl : l.dot l = 1) :
    sample m n i l = m.ambient.scale m.k_a := by
  ext <;> simp [sample, Vec3.scale, Vec3.add_def, hd, hs]

/-- Witness for C4 at the ambient-only material mAmb and n = i = l = (0,0,1). -/
theorem sample_ambient_only_witness :
    mAmb.k_d = 0 ∧ mAmb.k_s = 0 ∧ 0 < mAmb.k_a ∧ e3.dot e3 = 1 ∧
      sample mAmb e3 e3 e3 = mAmb.ambient.scale mAmb.k_a := by
  have h1 : e3.dot e3 = 1 := by norm_num [Vec3.dot, e3]
  have hk : (0 : ℝ) < mAmb.k_a := by norm_num [mAmb]
  exact ⟨rfl, rfl, hk, h1, sample_ambient_only mAmb e3 e3 e3 rfl rfl hk h1 h1 h1⟩

/-- C10: sample does not read the global recursion parameters: two materials
agreeing on every field except possibly k_sg, k_tg and the transmission color
produce the same sample value on every input triple. -/
theorem sample_independent_of_globals (m₁ m₂ : CookTorranceMaterial)
    (n i l : Vec3) (h1 : m₁.k_a = m₂.k_a) (h2 : m₁.k_d = m₂.k_d)
    (h3 : m₁.k_s = m₂.k_s) (h4 : m₁.ambient = m₂.ambient)
    (h5 : m₁.diffuse = m₂.diffuse) (h6 : m₁.specular = m₂.specular)
    (h7 : m₁.roughness = m₂.roughness)
    (h8 : m₁.gauss_constant = m₂.gauss_constant) (h9 : m₁.ior = m₂.ior) :
    sample m₁ n i l = sample m₂ n i l := by
  simp only [sample, fresnel, h1, h2, h3, h4, h5, h6, h7, h8, h9]

/-- Witness for C10: mRT and mGlob differ only in k_sg, k_tg and the
transmission color and sample agrees on them at n = i = l = (0,0,1). -/
theorem sample_independent_of_globals_witness :
    mRT.k_a = mGlob.k_a ∧ mRT.k_sg ≠ mGlob.k_sg ∧ mRT.k_tg ≠ mGlob.k_tg ∧
      sample mRT e3 e3 e3 = sample mGlob e3 e3 e3 := by
  refine ⟨rfl, ?_, ?_, ?_⟩
  · norm_num [mRT, mGlob]
  · norm_num [mRT, mGlob]
  · exact sample_independent_of_globals mRT mGlob e3 e3 e3 rfl rfl rfl rfl rfl
      rfl rfl rfl rfl

/-- C2 counterexample: with viewer and light directions exactly opposite
(i = (0,0,1), l = (0,0,-1)) the half-vector l + i is the zero vector and the
unguarded evaluation produces NaN components; the finiteness-tracking
evaluator returns none instead of any finite fallback color. -/
theorem sampleF_opposite_directions_cex :
    sampleF mRT e3 e3 negE3 = none := by
  norm_num [sampleF, unitQ, e3, negE3, Vec3.add_def, Vec3.dot]

/-- C2 amended: the source performs no guarding; sample produces non-finite
values at degenerate inputs (it is none in the finiteness-tracking evaluator
when l + i is the zero vector, or a divisor dot(i,h) or
dot(n,i) * dot(n,l) vanishes, or acos leaves its domain, or roughness is
non-positive), and whenever none of those degeneracies occur the result is
the finite real-arithmetic color of sample. -/
theorem sampleF_eq_sample_of_nondegenerate (m : CookTorranceMaterial)
    (n i l : Vec3) (h0 : (l + i).dot (l + i) ≠ 0)
    (hnh : |n.dot ((l + i).unit)| ≤ 1) (hr : 0 < m.roughness)
    (hvh : i.dot ((l + i).unit) ≠ 0)
    (hnv : n.dot i * n.dot l ≠ 0) :
    sampleF m n i l = some (sample m n i l) := by
  simp only [Vec3.unit] at hnh hvh
  simp only [sampleF, unitQ, if_neg h0, sample, Vec3.unit]
  rw [if_neg (not_lt.mpr hnh), if_neg (not_le.mpr hr), if_neg hvh,
    if_neg hnv]

/-- Witness for the amended C2 at mRT and n = i = l = (0,0,1). -/
theorem sampleF_eq_sample_of_nondegenerate_witness :
    (e3 + e3).dot (e3 + e3) ≠ 0 ∧ |e3.dot ((e3 + e3).unit)| ≤ 1 ∧
      0 < mRT.roughness ∧ e3.dot ((e3 + e3).unit) ≠ 0 ∧
      e3.dot e3 * e3.dot e3 ≠ 0 ∧
      sampleF mRT e3 e3 e3 = some (sample mRT e3 e3 e3) := by
  have h0 : (e3 + e3).dot (e3 + e3) ≠ 0 := by
    norm_num [Vec3.dot, Vec3.add_def, e3]
  have h1 : e3.dot ((e3 + e3).unit) = 1 := by
    rw [unit_double_e3]; norm_num [Vec3.dot, e3]
  have hr : (0 : ℝ) < mRT.roughness := by norm_num [mRT]
  have hnv : e3.dot e3 * e3.dot e3 ≠ 0 := by norm_num [Vec3.dot, e3]
  exact ⟨h0, by rw [h1]; norm_num, hr, by rw [h1]; norm_num, hnv,
    sampleF_eq_sample_of_nondegenerate mRT e3 e3 e3 h0 (by rw [h1]; norm_num)
      hr (by rw [h1]; norm_num) hnv⟩

/-- C5 counterexample: the material record has no constructor validation: a
material with negative roughness and non-positive ior is constructible. -/
theorem invalid_material_constructible_cex :
    ∃ m : CookTorranceMaterial, m.roughness = -1 ∧ m.ior = 0 :=
  ⟨⟨0, 0, 0, 0, 0, one3, one3, one3, one3, -1, 1, 0⟩, rfl, rfl⟩

/-- C5 amended: construction is unvalidated: for arbitrary parameter values,
including negative roughness and non-positive ior, a material with exactly
those fields exists; no construction-time or per-evaluation rejection of
invalid parameters is present in the code. -/
theorem material_construction_unvalidated (ka kd ks ksg ktg rough gc io : ℝ)
    (amb dif tra spe : Vec3) :
    ∃ m : CookTorranceMaterial, m.k_a = ka ∧ m.k_d = kd ∧ m.k_s = ks ∧
      m.k_sg = ksg ∧ m.k_tg = ktg ∧ m.ambient = amb ∧ m.diffuse = dif ∧
      m.transmission = tra ∧ m.specular = spe ∧ m.roughness = rough ∧
      m.gauss_constant = gc ∧ m.ior = io :=
  ⟨⟨ka, kd, ks, ksg, ktg, amb, dif, tra, spe, rough, gc, io⟩,
    rfl, rfl, rfl, rfl, rfl, rfl, rfl, rfl, rfl, rfl, rfl, rfl⟩

/-- C8: at normal incidence i = l = n with unit n, the Fresnel factor
computed inside sample equals f0 = ((1 - ior) / (1 + ior))^2, because
dot(i,h) = 1 makes (1 - dot(i,h))^5 vanish. -/
theorem fresnel_normal_incidence (m : CookTorranceMaterial) (n : Vec3)
    (hn : n.dot n = 1) :
    fresnel m.ior (n.dot ((n + n).unit)) =
      ((1 - m.ior) / (1 + m.ior)) ^ 2 := by
  simp only [Vec3.dot] at hn
  have hd : (n + n).dot (n + n) = 4 := by
    simp only [Vec3.dot, Vec3.add_def]
    nlinarith [hn]
  have hu : n.dot ((n + n).unit) = 1 := by
    rw [show (n + n).unit =
        (n + n).scale (1 / Real.sqrt ((n + n).dot (n + n))) from rfl,
      hd, sqrtFour]
    simp only [Vec3.scale, Vec3.dot, Vec3.add_def]
    linear_combination hn
  rw [hu]
  norm_num [fresnel]

/-- Witness for C8 at n = (0,0,1) and the material mRT. -/
theorem fresnel_normal_incidence_witness :
    e3.dot e3 = 1 ∧
      fresnel mRT.ior (e3.dot ((e3 + e3).unit)) =
        ((1 - mRT.ior) / (1 + mRT.ior)) ^ 2 := by
  have h1 : e3.dot e3 = 1 := by norm_num [Vec3.dot, e3]
  exact ⟨h1, fresnel_normal_incidence mRT e3 h1⟩

/-- C9: sample is a pure deterministic function of the material record and
the three directions: repeated evaluation at equal arguments yields equal
colors, and at the spec round-trip material mRT (k_a = 0.1, k_d = 0.6,
k_s = 0.3, k_sg = k_tg = 0, roughness = 0.2, gauss_constant = 1, ior = 1.5,
colors (1,1,1)) with n = i = l = (0,0,1) the reproducible value is exactly
(0.724, 0.724, 0.724). -/
theorem sample_deterministic :
    (∀ (m : CookTorranceMaterial) (n i l : Vec3),
        sample m n i l = sample m n i l) ∧
      sample mRT e3 e3 e3 = ⟨0.724, 0.724, 0.724⟩ := by
  refine ⟨fun m n i l => rfl, ?_⟩
  have hu := unit_double_e3
  have hd : e3.dot e3 = 1 := by norm_num [Vec3.dot, e3]
  simp only [sample, hu, hd, fresnel]
  ext <;>
    simp [mRT, e3, one3, Vec3.scale, Vec3.add_def, Real.arccos_one,
      Real.exp_zero] <;>
    norm_num
